import Mathlib

/-!
# NTL and NO2 per province: the yearly zonal tables and the merge loop of `GEE.js`

A shallow embedding of the Earth Engine script `src/GEE.js`.

* A feature is a geometry together with a property dictionary (a finite map from
  property names to values).  Property dictionaries are unordered and have unique
  keys, exactly like the client library's dictionaries.
* A feature collection is the list of its features.
* The parts of the platform that depend on raster data (the image catalogue, the
  temporal mean, the zonal reduction) are fields of `Engine`; every theorem holds
  for all engines.
* Everything the script itself does (date window, projection to `NAME_1`, renaming
  of `sum`, inner join, `copyProperties`, the loop over the years) is a computable
  definition that follows the script line by line.
-/

namespace GEE

/-! ## Data model -/

/-- Cell contents of a table.  The script never computes with a cell, it only moves
cells between columns, so a number is represented by an integer code. -/
inductive Value where
  | number (x : Int)
  | string (s : String)
  deriving Repr

instance : DecidableEq Value := fun a b =>
  match a, b with
  | .number x, .number y => decidable_of_iff (x = y) (by simp)
  | .string s, .string t => decidable_of_iff (s = t) (by simp)
  | .number _, .string _ => isFalse (by simp)
  | .string _, .number _ => isFalse (by simp)

/-- Geometries are never inspected by the script; a geometry is an identifier. -/
abbrev Geometry := Nat

/-- The property dictionary of a feature. -/
abbrev Properties := Finmap (fun _ : String => Value)

/-- An `ee.Feature`: a geometry and a property dictionary. -/
structure Feature where
  geometry : Geometry
  properties : Properties

instance : DecidableEq Feature := fun a b =>
  decidable_of_iff (a.geometry = b.geometry ∧ a.properties = b.properties)
    (by cases a; cases b; simp)

/-- An `ee.FeatureCollection`. -/
abbrev FeatureCollection := List Feature

namespace Feature

/-- The method `feature.get(name)`: the value of the property, `none` (null) when the
feature has no such property. -/
def get (feature : Feature) (name : String) : Option Value :=
  feature.properties.lookup name

/-- The method `feature.set(name, value)`: overrides one property.  A null value leaves
the feature without that property (the platform does not store null properties). -/
def set (feature : Feature) (name : String) (value : Option Value) : Feature :=
  match value with
  | some v => { feature with properties := feature.properties.insert name v }
  | none => { feature with properties := feature.properties.erase name }

/-- The method `feature.select(names)`: keeps the geometry and, of the properties, only
those listed (a listed name the feature does not carry is skipped). -/
def select (feature : Feature) (names : List String) : Feature :=
  { feature with
    properties := names.foldr
      (fun name acc =>
        match feature.get name with
        | some v => acc.insert name v
        | none => acc) ∅ }

/-- The method `destination.copyProperties(source)`: every property of `source` is
written onto `destination` (overriding a property of the same name); the geometry
and the remaining properties of `destination` are kept. -/
def copyProperties (destination source : Feature) : Feature :=
  { destination with properties := source.properties ∪ destination.properties }

/-- The column names of a row. -/
def propertyNames (feature : Feature) : Finset String :=
  feature.properties.keys

end Feature

/-- The method `collection.select(names)` of a feature collection. -/
def FeatureCollection.select (collection : FeatureCollection) (names : List String) :
    FeatureCollection :=
  collection.map fun feature => feature.select names

/-! ## Dates and image collections -/

/-- Days between 1970-01-01 and the given day of the proleptic Gregorian calendar. -/
def daysFromCivil (year month day : Int) : Int :=
  let y := if month ≤ 2 then year - 1 else year
  let era := y / 400
  let yoe := y - era * 400
  let mp := (month + 9) % 12
  let doy := (153 * mp + 2) / 5 + day - 1
  let doe := yoe * 365 + yoe / 4 - yoe / 100 + doy
  era * 146097 + doe - 719468

/-- The constructor `ee.Date.fromYMD(year, month, day)`: midnight UTC at the start of
that day, in milliseconds since the epoch. -/
def Date.fromYMD (year month day : Int) : Int :=
  daysFromCivil year month day * 86400000

/-- An image of a collection: an identifier for its pixel content, its timestamp
(`system:time_start`, milliseconds since the epoch) and its band names. -/
structure Image where
  pixels : Nat
  time_start : Int
  bands : List String

/-- The method `collection.filterDate(start, end)`: keeps the images whose timestamp
is at or after `start` and strictly before `end` (the end is exclusive). -/
def ImageCollection.filterDate (collection : List Image) (start stop : Int) : List Image :=
  collection.filter fun image => decide (start ≤ image.time_start ∧ image.time_start < stop)

/-- The method `collection.select(band)` of an image collection. -/
def ImageCollection.select (collection : List Image) (band : String) : List Image :=
  collection.map fun image => { image with bands := image.bands.filter fun b => b == band }

/-- The raster side of the platform, which the script only calls:
`catalogue id` is `ee.ImageCollection(id)`, `mean` is the per-pixel temporal mean of
an image stack, and `reduceRegions image collection scale` is the zonal reduction
`image.reduceRegions` with the reducer `ee.Reducer.sum()`, whose rows store the total
under the property `sum`. -/
structure Engine where
  catalogue : String → List Image
  mean : List Image → Image
  reduceRegions : Image → FeatureCollection → Nat → FeatureCollection

/-! ## Part 2 of the script: the two yearly tables -/

/-- The image stack handed to `.mean()` in `calculateNtlForYear`. -/
def ntlStack (ee : Engine) (year : Int) : List Image :=
  let startDate := Date.fromYMD year 1 1
  let endDate := Date.fromYMD year 12 31
  ImageCollection.select
    (ImageCollection.filterDate (ee.catalogue "NOAA/VIIRS/DNB/MONTHLY_V1/VCMCFG")
      startDate endDate)
    "avg_rad"

/-- The local `ntlSum` of `calculateNtlForYear`: the zonal sums over `provinsi`. -/
def ntlSum (ee : Engine) (provinsi : FeatureCollection) (year : Int) : FeatureCollection :=
  let ntlImage := ee.mean (ntlStack ee year)
  ee.reduceRegions ntlImage provinsi 500

/-- The function `calculateNtlForYear(year)`. -/
def calculateNtlForYear (ee : Engine) (provinsi : FeatureCollection) (year : Int) :
    FeatureCollection :=
  (ntlSum ee provinsi year).map fun feature =>
    (feature.select ["NAME_1"]).set ("NTL_" ++ toString year) (feature.get "sum")

/-- The image stack handed to `.mean()` in `calculateNo2ForYear`. -/
def no2Stack (ee : Engine) (year : Int) : List Image :=
  let startDate := Date.fromYMD year 1 1
  let endDate := Date.fromYMD year 12 31
  ImageCollection.select
    (ImageCollection.filterDate (ee.catalogue "COPERNICUS/S5P/OFFL/L3_NO2")
      startDate endDate)
    "tropospheric_NO2_column_number_density"

/-- The local `no2Sum` of `calculateNo2ForYear`: the zonal sums over `provinsi`. -/
def no2Sum (ee : Engine) (provinsi : FeatureCollection) (year : Int) : FeatureCollection :=
  let no2Image := ee.mean (no2Stack ee year)
  ee.reduceRegions no2Image provinsi 5000

/-- The function `calculateNo2ForYear(year)`. -/
def calculateNo2ForYear (ee : Engine) (provinsi : FeatureCollection) (year : Int) :
    FeatureCollection :=
  (no2Sum ee provinsi year).map fun feature =>
    (feature.select ["NAME_1"]).set ("NO2_" ++ toString year) (feature.get "sum")

/-! ## Part 3 of the script: the join and the loop over the years -/

/-- The filter `ee.Filter.equals({leftField, rightField})` as a join condition: the
two fields are both present and hold equal values. -/
def Filter.equals (leftField rightField : String) (left right : Feature) : Bool :=
  match left.get leftField, right.get rightField with
  | some a, some b => decide (a = b)
  | _, _ => false

/-- The global `filter` of the script. -/
def filter : Feature → Feature → Bool :=
  Filter.equals "NAME_1" "NAME_1"

/-- An element of a join result: the matched pair under `primary` and `secondary`. -/
structure JoinedFeature where
  primary : Feature
  secondary : Feature

/-- The method `ee.Join.inner().apply(primary, secondary, condition)`: one element for
every pair of a primary and a secondary feature that satisfies the condition. -/
def Join.inner.apply (primary secondary : FeatureCollection)
    (condition : Feature → Feature → Bool) : List JoinedFeature :=
  primary.flatMap fun p =>
    (secondary.filter fun s => condition p s).map fun s => ⟨p, s⟩

/-- One merge step of the loop body (steps 3 and 4 are the same code):
`join.apply(combinedResults, yearlyResult, filter)` followed by the map
`ee.Feature(feature.get('primary')).copyProperties(feature.get('secondary'))`. -/
def mergeStep (combinedResults yearlyResult : FeatureCollection) : FeatureCollection :=
  (Join.inner.apply combinedResults yearlyResult filter).map fun feature =>
    feature.primary.copyProperties feature.secondary

/-- The body of `years.forEach`: the table after the given year has been processed. -/
def yearStep (ee : Engine) (provinsi : FeatureCollection)
    (combinedResults : FeatureCollection) (year : Int) : FeatureCollection :=
  let ntlYearlyResult := calculateNtlForYear ee provinsi year
  let no2YearlyResult := calculateNo2ForYear ee provinsi year
  let combinedResults := mergeStep combinedResults ntlYearlyResult
  mergeStep combinedResults no2YearlyResult

/-- The final `combinedResults`: `provinsi.select(['NAME_1'])` folded through the body
of the loop, one year after the other. -/
def combinedResults (ee : Engine) (provinsi : FeatureCollection) (years : List Int) :
    FeatureCollection :=
  years.foldl (yearStep ee provinsi) (FeatureCollection.select provinsi ["NAME_1"])

/-- The value of `years` in the script. -/
def years : List Int := [2019, 2020, 2021, 2022, 2023, 2024]

/-! ## Vocabulary of the statements -/

/-- The region names (values of `NAME_1`) of a table, row by row; a row without the
property contributes nothing. -/
def names (table : FeatureCollection) : List Value :=
  table.filterMap fun feature => feature.get "NAME_1"

/-- The number of rows of a table whose `NAME_1` is the given region name. -/
def rowsNamed (table : FeatureCollection) (name : Value) : Nat :=
  table.countP fun feature => decide (feature.get "NAME_1" = some name)

/-- The metric column names of a list of years, in the order the loop adds them. -/
def metricColumns (years : List Int) : List String :=
  years.flatMap fun y => ["NTL_" ++ toString y, "NO2_" ++ toString y]

/-- The column set the final table is expected to have: the identity column and the
two metric columns of every year. -/
def expectedColumns (years : List Int) : Finset String :=
  insert "NAME_1" (metricColumns years).toFinset

/-- The number of rows of a table that carry the `NAME_1` of the given region. -/
def rowsOfRegion (table : FeatureCollection) (region : Feature) : Nat :=
  table.countP fun feature => decide (feature.get "NAME_1" = region.get "NAME_1")

/-- A table has exactly one row per region: every region of the region table carries
a `NAME_1`, and exactly one row of the table carries that name. -/
def OneRowPerRegion (provinsi table : FeatureCollection) : Prop :=
  ∀ p ∈ provinsi, (p.get "NAME_1").isSome ∧ rowsOfRegion table p = 1

instance (provinsi table : FeatureCollection) : Decidable (OneRowPerRegion provinsi table) := by
  unfold OneRowPerRegion
  infer_instance

/-- The number a list of decimal digit characters denotes. -/
def decimalValue (cs : List Char) : Nat :=
  cs.foldl (fun acc c => 10 * acc + (c.toNat - 48)) 0

/-! ## Concrete tables and engines used as test inputs -/

/-- The constructor `ee.Feature(geometry, properties)` for a literal property list. -/
def Feature.ofList (geometry : Geometry) (properties : List (String × Value)) : Feature :=
  ⟨geometry, properties.foldr (fun kv acc => acc.insert kv.1 kv.2) ∅⟩

/-- A master table of one row that already carries the column `NTL_2019`. -/
def masterWithNtl2019 : FeatureCollection :=
  [Feature.ofList 7 [("NAME_1", .string "Aceh"), ("NTL_2019", .number 1)]]

/-- A metric-year table of one row for the same region and the same column. -/
def metricNtl2019 : FeatureCollection :=
  [Feature.ofList 9 [("NAME_1", .string "Aceh"), ("NTL_2019", .number 2)]]

/-- A master table of two regions, identity column only. -/
def masterAcehBali : FeatureCollection :=
  [Feature.ofList 7 [("NAME_1", .string "Aceh")], Feature.ofList 8 [("NAME_1", .string "Bali")]]

/-- A metric-year table with one row for each of the two regions. -/
def metricAcehBali : FeatureCollection :=
  [Feature.ofList 8 [("NAME_1", .string "Bali"), ("NO2_2020", .number 30)],
   Feature.ofList 7 [("NAME_1", .string "Aceh"), ("NO2_2020", .number 40)]]

/-- A master table of one region. -/
def masterAceh : FeatureCollection :=
  [Feature.ofList 7 [("NAME_1", .string "Aceh")]]

/-- A metric-year table that holds two rows for the region Aceh. -/
def metricAcehTwice : FeatureCollection :=
  [Feature.ofList 7 [("NAME_1", .string "Aceh"), ("NTL_2019", .number 3)],
   Feature.ofList 7 [("NAME_1", .string "Aceh"), ("NTL_2019", .number 4)]]

/-- A region table of two provinces that carry a second source column. -/
def provinsiAcehBali : FeatureCollection :=
  [Feature.ofList 7 [("NAME_1", .string "Aceh"), ("GID_1", .string "IDN.1_1")],
   Feature.ofList 8 [("NAME_1", .string "Bali"), ("GID_1", .string "IDN.2_1")]]

/-- An engine whose zonal reduction returns every region of the collection, with all
its source columns and a `sum` column. -/
def fullCoverage : Engine where
  catalogue := fun _ => []
  mean := fun _ => ⟨0, 0, []⟩
  reduceRegions := fun _ collection scale =>
    collection.map fun feature =>
      feature.set "sum" (some (.number (Int.ofNat (feature.geometry * scale))))

/-- An engine whose rasters do not cover the geometry of Bali: the zonal reduction
returns no row for it. -/
def noCoverageOfBali : Engine where
  catalogue := fun _ => []
  mean := fun _ => ⟨0, 0, []⟩
  reduceRegions := fun _ collection scale =>
    (collection.filter fun feature => decide (feature.geometry ≠ 8)).map fun feature =>
      feature.set "sum" (some (.number (Int.ofNat (feature.geometry * scale))))

/-- An engine whose rasters have no valid pixel over Bali: the zonal reduction returns
the row of every region, and the row of Bali has no `sum`. -/
def noSumForBali : Engine where
  catalogue := fun _ => []
  mean := fun _ => ⟨0, 0, []⟩
  reduceRegions := fun _ collection scale =>
    collection.map fun feature =>
      if feature.geometry = 8 then feature
      else feature.set "sum" (some (.number (Int.ofNat (feature.geometry * scale))))

/-- A region table whose single region carries no `NAME_1`. -/
def provinsiUnnamed : FeatureCollection :=
  [Feature.ofList 7 [("GID_1", .string "IDN.1_1")]]

/-- An engine whose two catalogues hold four images each, timestamped 2019-01-01 00:00,
2019-12-30 23:59:59.999, 2019-12-31 00:00 and 2019-12-31 12:00 (UTC). -/
def december2019 : Engine where
  catalogue := fun _ =>
    [⟨1, 1546300800000, ["avg_rad", "tropospheric_NO2_column_number_density"]⟩,
     ⟨2, 1577750399999, ["avg_rad", "tropospheric_NO2_column_number_density"]⟩,
     ⟨3, 1577750400000, ["avg_rad", "tropospheric_NO2_column_number_density"]⟩,
     ⟨4, 1577793600000, ["avg_rad", "tropospheric_NO2_column_number_density"]⟩]
  mean := fun _ => ⟨0, 0, []⟩
  reduceRegions := fun _ collection _ => collection

/-! ## Decimal rendering of a year and the column names -/

theorem decimalValue_append_singleton (cs : List Char) (c : Char) :
    decimalValue (cs ++ [c]) = 10 * decimalValue cs + (c.toNat - 48) := by
  simp [decimalValue, List.foldl_append]

theorem digitChar_value (d : Nat) (h : d < 10) : (Nat.digitChar d).toNat - 48 = d := by
  interval_cases d <;> rfl

theorem digitChar_ne_minus (d : Nat) (h : d < 10) : Nat.digitChar d ≠ '-' := by
  interval_cases d <;> decide

theorem toDigitsCore_append (fuel : Nat) : ∀ (n : Nat) (ds : List Char),
    Nat.toDigitsCore 10 fuel n ds = Nat.toDigitsCore 10 fuel n [] ++ ds := by
  induction fuel with
  | zero => intro n ds; simp [Nat.toDigitsCore]
  | succ fuel ih =>
    intro n ds
    simp only [Nat.toDigitsCore]
    split
    · simp
    · rw [ih (n / 10) (_ :: ds), ih (n / 10) [_]]; simp

theorem decimalValue_toDigitsCore (fuel : Nat) : ∀ n : Nat, n < fuel →
    decimalValue (Nat.toDigitsCore 10 fuel n []) = n := by
  induction fuel with
  | zero => intro n h; omega
  | succ fuel ih =>
    intro n h
    simp only [Nat.toDigitsCore]
    split
    · rename_i h0
      have hn : n % 10 = n := by omega
      have hv := digitChar_value (n % 10) (Nat.mod_lt _ (by norm_num))
      rw [hn] at hv
      simp [decimalValue, hn, hv]
    · rename_i h0
      rw [toDigitsCore_append, decimalValue_append_singleton,
        ih (n / 10) (by omega), digitChar_value (n % 10) (Nat.mod_lt _ (by norm_num))]
      omega

theorem minus_not_mem_toDigitsCore (fuel : Nat) : ∀ (n : Nat) (ds : List Char),
    '-' ∉ ds → '-' ∉ Nat.toDigitsCore 10 fuel n ds := by
  induction fuel with
  | zero => intro n ds h; simpa [Nat.toDigitsCore] using h
  | succ fuel ih =>
    intro n ds h
    have hd : '-' ∉ Nat.digitChar (n % 10) :: ds := by
      intro hmem
      rcases List.mem_cons.1 hmem with h1 | h1
      · exact digitChar_ne_minus (n % 10) (Nat.mod_lt _ (by norm_num)) h1.symm
      · exact h h1
    simp only [Nat.toDigitsCore]
    split
    · exact hd
    · exact ih _ _ hd

theorem toDigits_injective (a b : Nat) (h : Nat.toDigits 10 a = Nat.toDigits 10 b) : a = b := by
  have ha := decimalValue_toDigitsCore (a + 1) a (Nat.lt_succ_self a)
  have hb := decimalValue_toDigitsCore (b + 1) b (Nat.lt_succ_self b)
  unfold Nat.toDigits at h
  rw [h] at ha
  omega

theorem toString_data_nat (n : Nat) : (toString n).data = Nat.toDigits 10 n := rfl

theorem toString_data_ofNat (n : Nat) : (toString (Int.ofNat n)).data = Nat.toDigits 10 n := rfl

theorem toString_data_negSucc (n : Nat) :
    (toString (Int.negSucc n)).data = '-' :: Nat.toDigits 10 (n + 1) := rfl

/-- The decimal rendering of an integer determines the integer. -/
theorem toString_int_injective (a b : Int) (h : toString a = toString b) : a = b := by
  have hd : (toString a).data = (toString b).data := by rw [h]
  cases a with
  | ofNat m =>
    cases b with
    | ofNat k =>
      rw [toString_data_ofNat, toString_data_ofNat] at hd
      rw [toDigits_injective m k hd]
    | negSucc k =>
      rw [toString_data_ofNat, toString_data_negSucc] at hd
      exfalso
      apply minus_not_mem_toDigitsCore (m + 1) m [] (by simp)
      show '-' ∈ Nat.toDigits 10 m
      rw [hd]; simp
  | negSucc m =>
    cases b with
    | ofNat k =>
      rw [toString_data_ofNat, toString_data_negSucc] at hd
      exfalso
      apply minus_not_mem_toDigitsCore (k + 1) k [] (by simp)
      show '-' ∈ Nat.toDigits 10 k
      rw [← hd]; simp
    | negSucc k =>
      rw [toString_data_negSucc, toString_data_negSucc] at hd
      have := toDigits_injective _ _ (List.cons.inj hd).2
      have : m = k := by omega
      rw [this]

theorem append_left_cancel (p a b : String) (h : p ++ a = p ++ b) : a = b := by
  have hd : (p ++ a).data = (p ++ b).data := by rw [h]
  rw [String.data_append, String.data_append] at hd
  exact String.ext (List.append_cancel_left hd)

theorem ntl_ne_name (s : String) : "NTL_" ++ s ≠ "NAME_1" := by
  intro h
  have hd : ("NTL_" ++ s).data = ("NAME_1" : String).data := by rw [h]
  rw [String.data_append] at hd
  simp at hd


theorem no2_ne_name (s : String) : "NO2_" ++ s ≠ "NAME_1" := by
  intro h
  have hd : ("NO2_" ++ s).data = ("NAME_1" : String).data := by rw [h]
  rw [String.data_append] at hd
  simp at hd

theorem ntl_ne_no2 (s t : String) : "NTL_" ++ s ≠ "NO2_" ++ t := by
  intro h
  have hd : ("NTL_" ++ s).data = ("NO2_" ++ t).data := by rw [h]
  rw [String.data_append, String.data_append] at hd
  simp at hd

theorem ntl_ne_sum (s : String) : "NTL_" ++ s ≠ "sum" := by
  intro h
  have hd : ("NTL_" ++ s).data = ("sum" : String).data := by rw [h]
  rw [String.data_append] at hd
  simp at hd

theorem no2_ne_sum (s : String) : "NO2_" ++ s ≠ "sum" := by
  intro h
  have hd : ("NO2_" ++ s).data = ("sum" : String).data := by rw [h]
  rw [String.data_append] at hd
  simp at hd

/-- Two years with the same NTL column name are the same year. -/
theorem ntl_injective {a b : Int} (h : "NTL_" ++ toString a = "NTL_" ++ toString b) : a = b :=
  toString_int_injective a b (append_left_cancel _ _ _ h)

/-- Two years with the same NO2 column name are the same year. -/
theorem no2_injective {a b : Int} (h : "NO2_" ++ toString a = "NO2_" ++ toString b) : a = b :=
  toString_int_injective a b (append_left_cancel _ _ _ h)

/-! ## Features, the join filter and one merge step -/

namespace Feature

theorem get_copyProperties_of_some {p s : Feature} {k : String} {v : Value}
    (h : s.get k = some v) : (p.copyProperties s).get k = some v := by
  unfold get copyProperties at *
  simp only
  rw [Finmap.lookup_union_left (Finmap.mem_of_lookup_eq_some h)]
  exact h

theorem get_copyProperties_of_none {p s : Feature} {k : String}
    (h : s.get k = none) : (p.copyProperties s).get k = p.get k := by
  unfold get copyProperties at *
  exact Finmap.lookup_union_right (Finmap.lookup_eq_none.1 h)

theorem mem_propertyNames {f : Feature} {k : String} :
    k ∈ f.propertyNames ↔ ∃ v, f.get k = some v := by
  unfold propertyNames get
  rw [Finmap.mem_keys, Finmap.mem_iff]

theorem not_mem_propertyNames {f : Feature} {k : String} :
    k ∉ f.propertyNames ↔ f.get k = none := by
  unfold propertyNames get
  rw [Finmap.mem_keys, Finmap.lookup_eq_none]

theorem propertyNames_copyProperties (p s : Feature) :
    (p.copyProperties s).propertyNames = s.propertyNames ∪ p.propertyNames :=
  Finmap.keys_union

theorem ext_get {f g : Feature} (hg : f.geometry = g.geometry)
    (h : ∀ k, f.get k = g.get k) : f = g := by
  cases f; cases g
  simp only [get] at h
  simp only at hg
  subst hg
  rw [Finmap.ext_lookup h]

theorem get_set_self (f : Feature) (c : String) (v : Option Value) :
    (f.set c v).get c = v := by
  cases v with
  | none => simp [set, get, Finmap.lookup_erase]
  | some x => simp [set, get, Finmap.lookup_insert]

theorem get_set_of_ne (f : Feature) {c k : String} (v : Option Value) (h : k ≠ c) :
    (f.set c v).get k = f.get k := by
  cases v with
  | none => simp [set, get, Finmap.lookup_erase_ne h]
  | some x => simp [set, get, Finmap.lookup_insert_of_ne _ h]

theorem geometry_set (f : Feature) (c : String) (v : Option Value) :
    (f.set c v).geometry = f.geometry := by
  cases v <;> rfl

theorem get_select_name (f : Feature) :
    (f.select ["NAME_1"]).get "NAME_1" = f.get "NAME_1" := by
  cases h : f.get "NAME_1" with
  | none => simp [select, get, h] at *; simp [h]
  | some x => simp [select, get] at *; simp [h, Finmap.lookup_insert]

theorem get_select_of_ne (f : Feature) {k : String} (hk : k ≠ "NAME_1") :
    (f.select ["NAME_1"]).get k = none := by
  cases h : f.get "NAME_1" with
  | none => simp [select, get] at *; simp [h]
  | some x => simp [select, get] at *; simp [h, Finmap.lookup_insert_of_ne _ hk]

end Feature

theorem filter_eq_true_iff (p s : Feature) :
    filter p s = true ↔ ∃ v, p.get "NAME_1" = some v ∧ s.get "NAME_1" = some v := by
  unfold filter Filter.equals
  cases hp : p.get "NAME_1" <;> cases hs : s.get "NAME_1" <;> simp [eq_comm]

theorem mergeStep_nil (t : FeatureCollection) : mergeStep [] t = [] := rfl

theorem mergeStep_cons (p : Feature) (m t : FeatureCollection) :
    mergeStep (p :: m) t
      = ((t.filter fun s => filter p s).map fun s => p.copyProperties s) ++ mergeStep m t := by
  simp [mergeStep, Join.inner.apply, List.map_map, Function.comp_def]

theorem mem_mergeStep {f : Feature} {m t : FeatureCollection} :
    f ∈ mergeStep m t ↔ ∃ p ∈ m, ∃ s ∈ t, filter p s = true ∧ f = p.copyProperties s := by
  simp only [mergeStep, Join.inner.apply, List.mem_map, List.mem_flatMap, List.mem_filter]
  constructor
  · rintro ⟨j, ⟨p, hp, s, ⟨hs, hc⟩, rfl⟩, rfl⟩
    exact ⟨p, hp, s, hs, hc, rfl⟩
  · rintro ⟨p, hp, s, hs, hc, rfl⟩
    exact ⟨⟨p, s⟩, ⟨p, hp, s, ⟨hs, hc⟩, rfl⟩, rfl⟩

/-- A merged row carries the region name of both rows it was made from. -/
theorem get_name_copyProperties {p s : Feature} (h : filter p s = true) :
    (p.copyProperties s).get "NAME_1" = p.get "NAME_1"
      ∧ (p.copyProperties s).get "NAME_1" = s.get "NAME_1" := by
  obtain ⟨v, hp, hs⟩ := (filter_eq_true_iff p s).1 h
  rw [Feature.get_copyProperties_of_some hs, hp, hs]
  exact ⟨rfl, rfl⟩

theorem mem_names {t : FeatureCollection} {n : Value} :
    n ∈ names t ↔ ∃ f ∈ t, f.get "NAME_1" = some n := by
  simp [names, List.mem_filterMap]

theorem names_cons_some {p : Feature} {v : Value} (t : FeatureCollection)
    (h : p.get "NAME_1" = some v) : names (p :: t) = v :: names t := by
  simp [names, List.filterMap_cons, h]

theorem names_cons_none {p : Feature} (t : FeatureCollection)
    (h : p.get "NAME_1" = none) : names (p :: t) = names t := by
  simp [names, List.filterMap_cons, h]

theorem filter_eq_decide {p : Feature} {v : Value} (h : p.get "NAME_1" = some v) :
    (fun s => filter p s) = fun s => decide (s.get "NAME_1" = some v) := by
  funext s
  unfold filter Filter.equals
  rw [h]
  cases hs : s.get "NAME_1" <;> simp [eq_comm]

theorem filter_eq_false_of_none {p : Feature} (h : p.get "NAME_1" = none) (s : Feature) :
    filter p s = false := by
  unfold filter Filter.equals
  rw [h]

/-- The rows of the secondary table that the join pairs with a primary row. -/
theorem matches_length {p : Feature} {v : Value} (h : p.get "NAME_1" = some v)
    (t : FeatureCollection) : (t.filter fun s => filter p s).length = rowsNamed t v := by
  rw [filter_eq_decide h, rowsNamed, List.countP_eq_length_filter]

theorem rowsNamed_le_one {t : FeatureCollection} (h : (names t).Nodup) (v : Value) :
    rowsNamed t v ≤ 1 := by
  induction t with
  | nil => simp [rowsNamed]
  | cons s t ih =>
    cases hs : s.get "NAME_1" with
    | none =>
      rw [names_cons_none t hs] at h
      have := ih h
      simpa [rowsNamed, List.countP_cons, hs] using this
    | some w =>
      rw [names_cons_some t hs] at h
      have hnod := List.nodup_cons.1 h
      have := ih hnod.2
      by_cases hw : w = v
      · subst hw
        have h0 : rowsNamed t w = 0 := by
          unfold rowsNamed
          rw [List.countP_eq_zero]
          intro a ha hdec
          exact hnod.1 (mem_names.2 ⟨a, ha, by simpa using hdec⟩)
        unfold rowsNamed at h0 ⊢
        simp [List.countP_cons, hs, h0]
      · unfold rowsNamed at this ⊢
        simpa [List.countP_cons, hs, hw] using this

/-- The names of the rows that one primary row produces: all equal to its own name. -/
theorem map_name_matches (p : Feature) (t : FeatureCollection) :
    ((t.filter fun s => filter p s).map fun s => (p.copyProperties s).get "NAME_1")
      = List.replicate (t.filter fun s => filter p s).length (p.get "NAME_1") := by
  rw [List.eq_replicate_iff]
  refine ⟨by simp, ?_⟩
  intro b hb
  obtain ⟨s, hs, rfl⟩ := List.mem_map.1 hb
  exact (get_name_copyProperties (List.mem_filter.1 hs).2).1

theorem map_name_mergeStep_cons (p : Feature) (m t : FeatureCollection) :
    (mergeStep (p :: m) t).map (fun f => f.get "NAME_1")
      = List.replicate (t.filter fun s => filter p s).length (p.get "NAME_1")
        ++ (mergeStep m t).map (fun f => f.get "NAME_1") := by
  rw [mergeStep_cons, List.map_append, List.map_map, ← map_name_matches]
  rfl

/-- When the secondary names are pairwise distinct, the names of the merged rows form
a sublist of the names of the primary rows. -/
theorem map_name_mergeStep_sublist (m t : FeatureCollection) (ht : (names t).Nodup) :
    ((mergeStep m t).map fun f => f.get "NAME_1").Sublist ((names m).map some) := by
  induction m with
  | nil => simp [mergeStep_nil, names]
  | cons p m ih =>
    rw [map_name_mergeStep_cons]
    cases hp : p.get "NAME_1" with
    | none =>
      have : (t.filter fun s => filter p s) = [] := by
        rw [List.filter_eq_nil_iff]
        intro s _
        simp [filter_eq_false_of_none hp s]
      rw [this, names_cons_none m hp]
      simpa using ih
    | some v =>
      rw [names_cons_some m hp, matches_length hp]
      have hle := rowsNamed_le_one ht v
      rw [List.map_cons]
      interval_cases h : rowsNamed t v
      · simpa using ih.cons (some v)
      · simpa using ih.cons₂ (some v)

/-- When every primary row finds exactly one secondary row of its name, the merged
table has the same names in the same order. -/
theorem map_name_mergeStep_eq (m t : FeatureCollection)
    (h : ∀ p ∈ m, ∃ v, p.get "NAME_1" = some v ∧ rowsNamed t v = 1) :
    ((mergeStep m t).map fun f => f.get "NAME_1") = m.map fun f => f.get "NAME_1" := by
  induction m with
  | nil => simp [mergeStep_nil]
  | cons p m ih =>
    obtain ⟨v, hv, h1⟩ := h p (List.mem_cons_self _ _)
    rw [map_name_mergeStep_cons, matches_length hv, h1,
      ih (fun q hq => h q (List.mem_cons_of_mem _ hq))]
    simp

/-! ## The yearly tables and the loop body -/

/-- The row the two yearly functions build from a zonal row: the projection to `NAME_1`
with the zonal `sum` stored under the column name `c`. -/
theorem renamed_row_get (feature : Feature) {c : String} (hc : c ≠ "NAME_1") :
    ((feature.select ["NAME_1"]).set c (feature.get "sum")).get "NAME_1" = feature.get "NAME_1"
    ∧ ((feature.select ["NAME_1"]).set c (feature.get "sum")).get c = feature.get "sum"
    ∧ (∀ k, k ≠ "NAME_1" → k ≠ c →
        ((feature.select ["NAME_1"]).set c (feature.get "sum")).get k = none)
    ∧ ((feature.select ["NAME_1"]).set c (feature.get "sum")).geometry = feature.geometry := by
  refine ⟨?_, Feature.get_set_self _ _ _, ?_, ?_⟩
  · rw [Feature.get_set_of_ne _ _ (Ne.symm hc), Feature.get_select_name]
  · intro k hk hkc
    rw [Feature.get_set_of_ne _ _ hkc, Feature.get_select_of_ne _ hk]
  · rw [Feature.geometry_set]; rfl

theorem mem_calculateNtlForYear {ee : Engine} {provinsi : FeatureCollection} {year : Int}
    {s : Feature} :
    s ∈ calculateNtlForYear ee provinsi year ↔ ∃ g ∈ ntlSum ee provinsi year,
      s = (g.select ["NAME_1"]).set ("NTL_" ++ toString year) (g.get "sum") := by
  simp [calculateNtlForYear, List.mem_map, eq_comm]

theorem mem_calculateNo2ForYear {ee : Engine} {provinsi : FeatureCollection} {year : Int}
    {s : Feature} :
    s ∈ calculateNo2ForYear ee provinsi year ↔ ∃ g ∈ no2Sum ee provinsi year,
      s = (g.select ["NAME_1"]).set ("NO2_" ++ toString year) (g.get "sum") := by
  simp [calculateNo2ForYear, List.mem_map, eq_comm]

/-- A row of the yearly NTL table has no column besides `NAME_1` and `NTL_<year>`. -/
theorem ntl_row_get_other {ee : Engine} {provinsi : FeatureCollection} {year : Int}
    {s : Feature} (hs : s ∈ calculateNtlForYear ee provinsi year) {k : String}
    (hk : k ≠ "NAME_1") (hkc : k ≠ "NTL_" ++ toString year) : s.get k = none := by
  obtain ⟨g, _, rfl⟩ := mem_calculateNtlForYear.1 hs
  exact (renamed_row_get g (ntl_ne_name _)).2.2.1 k hk hkc

/-- A row of the yearly NO2 table has no column besides `NAME_1` and `NO2_<year>`. -/
theorem no2_row_get_other {ee : Engine} {provinsi : FeatureCollection} {year : Int}
    {s : Feature} (hs : s ∈ calculateNo2ForYear ee provinsi year) {k : String}
    (hk : k ≠ "NAME_1") (hkc : k ≠ "NO2_" ++ toString year) : s.get k = none := by
  obtain ⟨g, _, rfl⟩ := mem_calculateNo2ForYear.1 hs
  exact (renamed_row_get g (no2_ne_name _)).2.2.1 k hk hkc

theorem combinedResults_nil (ee : Engine) (provinsi : FeatureCollection) :
    combinedResults ee provinsi [] = FeatureCollection.select provinsi ["NAME_1"] := rfl

theorem combinedResults_append (ee : Engine) (provinsi : FeatureCollection)
    (ys : List Int) (y : Int) :
    combinedResults ee provinsi (ys ++ [y])
      = yearStep ee provinsi (combinedResults ee provinsi ys) y := by
  simp [combinedResults, List.foldl_append]

theorem mem_yearStep {ee : Engine} {provinsi cur : FeatureCollection} {y : Int} {f : Feature} :
    f ∈ yearStep ee provinsi cur y ↔
      ∃ p ∈ cur, ∃ s ∈ calculateNtlForYear ee provinsi y,
        ∃ o ∈ calculateNo2ForYear ee provinsi y,
          filter p s = true ∧ filter (p.copyProperties s) o = true
            ∧ f = (p.copyProperties s).copyProperties o := by
  unfold yearStep
  simp only [mem_mergeStep]
  constructor
  · rintro ⟨q, ⟨p, hp, s, hs, hps, rfl⟩, o, ho, hqo, rfl⟩
    exact ⟨p, hp, s, hs, o, ho, hps, hqo, rfl⟩
  · rintro ⟨p, hp, s, hs, o, ho, hps, hqo, rfl⟩
    exact ⟨_, ⟨p, hp, s, hs, hps, rfl⟩, o, ho, hqo, rfl⟩

/-- The cells of a row after one pass of the loop body, in terms of the row before and
the two yearly rows it was joined with. -/
theorem get_yearStep_row {ee : Engine} {provinsi : FeatureCollection} {y : Int}
    {p s o : Feature} (hs : s ∈ calculateNtlForYear ee provinsi y)
    (ho : o ∈ calculateNo2ForYear ee provinsi y)
    (hps : filter p s = true) (hqo : filter (p.copyProperties s) o = true) :
    ((p.copyProperties s).copyProperties o).get "NAME_1" = p.get "NAME_1"
    ∧ s.get "NAME_1" = p.get "NAME_1" ∧ o.get "NAME_1" = p.get "NAME_1"
    ∧ (∀ k, k ≠ "NTL_" ++ toString y → k ≠ "NO2_" ++ toString y →
        ((p.copyProperties s).copyProperties o).get k = p.get k)
    ∧ (s.get ("NTL_" ++ toString y) = none →
        ((p.copyProperties s).copyProperties o).get ("NTL_" ++ toString y)
          = p.get ("NTL_" ++ toString y))
    ∧ (∀ v, s.get ("NTL_" ++ toString y) = some v →
        ((p.copyProperties s).copyProperties o).get ("NTL_" ++ toString y) = some v)
    ∧ (o.get ("NO2_" ++ toString y) = none →
        ((p.copyProperties s).copyProperties o).get ("NO2_" ++ toString y)
          = p.get ("NO2_" ++ toString y))
    ∧ (∀ v, o.get ("NO2_" ++ toString y) = some v →
        ((p.copyProperties s).copyProperties o).get ("NO2_" ++ toString y) = some v) := by
  have h1 := get_name_copyProperties hps
  have h2 := get_name_copyProperties hqo
  have hoN : o.get ("NTL_" ++ toString y) = none :=
    no2_row_get_other ho (ntl_ne_name _) (ntl_ne_no2 _ _)
  have hsO : s.get ("NO2_" ++ toString y) = none :=
    ntl_row_get_other hs (no2_ne_name _) (fun h => ntl_ne_no2 _ _ h.symm)
  refine ⟨by rw [h2.1, h1.1], by rw [← h1.2, h1.1], by rw [← h2.2, h2.1, h1.1], ?_, ?_, ?_, ?_, ?_⟩
  · intro k hkN hkO
    by_cases hk : k = "NAME_1"
    · subst hk; rw [h2.1, h1.1]
    · rw [Feature.get_copyProperties_of_none (no2_row_get_other ho hk hkO),
        Feature.get_copyProperties_of_none (ntl_row_get_other hs hk hkN)]
  · intro hnone
    rw [Feature.get_copyProperties_of_none hoN, Feature.get_copyProperties_of_none hnone]
  · intro v hv
    rw [Feature.get_copyProperties_of_none hoN, Feature.get_copyProperties_of_some hv]
  · intro hnone
    rw [Feature.get_copyProperties_of_none hnone, Feature.get_copyProperties_of_none hsO]
  · intro v hv
    rw [Feature.get_copyProperties_of_some hv]

theorem mem_names_mergeStep (m t : FeatureCollection) (n : Value) :
    n ∈ names (mergeStep m t) ↔ n ∈ names m ∧ n ∈ names t := by
  simp only [mem_names, mem_mergeStep]
  constructor
  · rintro ⟨f, ⟨p, hp, s, hs, hc, rfl⟩, hn⟩
    have h := get_name_copyProperties hc
    exact ⟨⟨p, hp, by rw [← h.1, hn]⟩, ⟨s, hs, by rw [← h.2, hn]⟩⟩
  · rintro ⟨⟨p, hp, hpn⟩, ⟨s, hs, hsn⟩⟩
    have hc : filter p s = true := (filter_eq_true_iff p s).2 ⟨n, hpn, hsn⟩
    exact ⟨_, ⟨p, hp, s, hs, hc, rfl⟩, by rw [(get_name_copyProperties hc).1, hpn]⟩

theorem map_name_select (provinsi : FeatureCollection) :
    (FeatureCollection.select provinsi ["NAME_1"]).map (fun f => f.get "NAME_1")
      = provinsi.map fun f => f.get "NAME_1" := by
  simp [FeatureCollection.select, List.map_map, Function.comp_def, Feature.get_select_name]

theorem names_eq_of_map_name_eq {a b : FeatureCollection}
    (h : a.map (fun f => f.get "NAME_1") = b.map fun f => f.get "NAME_1") :
    names a = names b := by
  have ha : names a = (a.map fun f => f.get "NAME_1").filterMap id := by
    simp [names, List.filterMap_map, Function.comp_def]
  have hb : names b = (b.map fun f => f.get "NAME_1").filterMap id := by
    simp [names, List.filterMap_map, Function.comp_def]
  rw [ha, hb, h]

theorem names_select (provinsi : FeatureCollection) :
    names (FeatureCollection.select provinsi ["NAME_1"]) = names provinsi :=
  names_eq_of_map_name_eq (map_name_select provinsi)

theorem mem_names_combinedResults (ee : Engine) (provinsi : FeatureCollection)
    (years : List Int) (n : Value) :
    n ∈ names (combinedResults ee provinsi years) ↔
      n ∈ names provinsi ∧ ∀ y ∈ years,
        n ∈ names (calculateNtlForYear ee provinsi y)
          ∧ n ∈ names (calculateNo2ForYear ee provinsi y) := by
  induction years using List.reverseRecOn with
  | nil => simp [combinedResults_nil, names_select]
  | append_singleton ys y ih =>
    rw [combinedResults_append]
    unfold yearStep
    simp only [mem_names_mergeStep, ih, List.mem_append, List.mem_singleton]
    constructor
    · rintro ⟨⟨⟨hp, hys⟩, hN⟩, hO⟩
      refine ⟨hp, ?_⟩
      rintro z (hz | rfl)
      · exact hys z hz
      · exact ⟨hN, hO⟩
    · rintro ⟨hp, h⟩
      exact ⟨⟨⟨hp, fun z hz => h z (Or.inl hz)⟩, (h y (Or.inr rfl)).1⟩, (h y (Or.inr rfl)).2⟩

/-- The columns of a renamed row, when the zonal row carries a name and a sum. -/
theorem renamed_row_propertyNames (feature : Feature) {c : String} (hc : c ≠ "NAME_1")
    (hn : (feature.get "NAME_1").isSome) (hv : (feature.get "sum").isSome) :
    ((feature.select ["NAME_1"]).set c (feature.get "sum")).propertyNames = {"NAME_1", c} := by
  obtain ⟨h1, h2, h3, _⟩ := renamed_row_get feature hc
  obtain ⟨n, hn⟩ := Option.isSome_iff_exists.1 hn
  obtain ⟨v, hv⟩ := Option.isSome_iff_exists.1 hv
  ext k
  rw [Feature.mem_propertyNames, Finset.mem_insert, Finset.mem_singleton]
  constructor
  · rintro ⟨w, hw⟩
    by_contra hk
    push_neg at hk
    rw [h3 k hk.1 hk.2] at hw
    exact Option.noConfusion hw
  · rintro (rfl | rfl)
    · exact ⟨n, by rw [h1, hn]⟩
    · exact ⟨v, by rw [h2, hv]⟩

/-- The row-by-row description of a yearly table in terms of the zonal table. -/
theorem renamed_rows (zonal : FeatureCollection) {c : String} (hc : c ≠ "NAME_1")
    (hsum : c ≠ "sum")
    (h : ∀ g ∈ zonal, (g.get "NAME_1").isSome ∧ (g.get "sum").isSome) :
    List.Forall₂
      (fun g r => r.propertyNames = {"NAME_1", c} ∧ r.propertyNames.card = 2
        ∧ r.get "NAME_1" = g.get "NAME_1" ∧ r.get c = g.get "sum"
        ∧ r.get "sum" = none ∧ r.geometry = g.geometry)
      zonal (zonal.map fun feature => (feature.select ["NAME_1"]).set c (feature.get "sum")) := by
  rw [List.forall₂_map_right_iff, List.forall₂_same]
  intro g hg
  obtain ⟨h1, h2, h3, h4⟩ := renamed_row_get g hc
  have hp := renamed_row_propertyNames g hc (h g hg).1 (h g hg).2
  refine ⟨hp, ?_, h1, h2, h3 "sum" (by decide) (Ne.symm hsum), h4⟩
  rw [hp]
  exact Finset.card_pair (Ne.symm hc)

/-! ## The column set and the cells of the final table -/

theorem metricColumns_append (ys : List Int) (y : Int) :
    metricColumns (ys ++ [y])
      = metricColumns ys ++ ["NTL_" ++ toString y, "NO2_" ++ toString y] := by
  simp [metricColumns, List.flatMap_append]

theorem mem_metricColumns {ys : List Int} {k : String} :
    k ∈ metricColumns ys ↔
      ∃ y ∈ ys, k = "NTL_" ++ toString y ∨ k = "NO2_" ++ toString y := by
  simp [metricColumns, List.mem_flatMap]

theorem name_not_mem_metricColumns (ys : List Int) : "NAME_1" ∉ metricColumns ys := by
  rw [mem_metricColumns]
  rintro ⟨y, _, h | h⟩
  · exact ntl_ne_name _ h.symm
  · exact no2_ne_name _ h.symm

theorem ntl_not_mem_metricColumns {ys : List Int} {y : Int} (hy : y ∉ ys) :
    "NTL_" ++ toString y ∉ metricColumns ys := by
  rw [mem_metricColumns]
  rintro ⟨z, hz, h | h⟩
  · exact hy (ntl_injective h ▸ hz)
  · exact ntl_ne_no2 _ _ h

theorem no2_not_mem_metricColumns {ys : List Int} {y : Int} (hy : y ∉ ys) :
    "NO2_" ++ toString y ∉ metricColumns ys := by
  rw [mem_metricColumns]
  rintro ⟨z, hz, h | h⟩
  · exact ntl_ne_no2 _ _ h.symm
  · exact hy (no2_injective h ▸ hz)

/-- Distinct years give distinct metric column names. -/
theorem metricColumns_nodup {ys : List Int} (h : ys.Nodup) : (metricColumns ys).Nodup := by
  induction ys using List.reverseRecOn with
  | nil => simp [metricColumns]
  | append_singleton ys y ih =>
    rw [List.nodup_append] at h
    have hy : y ∉ ys := fun hmem => h.2.2 hmem (List.mem_singleton_self y)
    rw [metricColumns_append, List.nodup_append]
    refine ⟨ih h.1, ?_, ?_⟩
    · simp [ntl_ne_no2]
    · intro k hk hk'
      simp only [List.mem_cons, List.mem_singleton, List.not_mem_nil, or_false] at hk'
      rcases hk' with rfl | rfl
      · exact ntl_not_mem_metricColumns hy hk
      · exact no2_not_mem_metricColumns hy hk

theorem length_metricColumns (ys : List Int) : (metricColumns ys).length = 2 * ys.length := by
  induction ys with
  | nil => rfl
  | cons y ys ih =>
    simp only [metricColumns, List.flatMap_cons, List.length_append, List.length_cons,
      List.length_nil] at ih ⊢
    omega

theorem card_expectedColumns {ys : List Int} (h : ys.Nodup) :
    (expectedColumns ys).card = 1 + 2 * ys.length := by
  unfold expectedColumns
  rw [Finset.card_insert_of_not_mem (by simpa using name_not_mem_metricColumns ys),
    List.toFinset_card_of_nodup (metricColumns_nodup h), length_metricColumns]
  omega

theorem mem_expectedColumns {ys : List Int} {k : String} :
    k ∈ expectedColumns ys ↔ k = "NAME_1" ∨ k ∈ metricColumns ys := by
  simp [expectedColumns]

theorem expectedColumns_append (ys : List Int) (y : Int) :
    expectedColumns (ys ++ [y])
      = {"NAME_1", "NO2_" ++ toString y} ∪ ({"NAME_1", "NTL_" ++ toString y}
          ∪ expectedColumns ys) := by
  ext k
  simp only [mem_expectedColumns, metricColumns_append, List.mem_append, List.mem_cons,
    List.mem_singleton, List.not_mem_nil, or_false, Finset.mem_union, Finset.mem_insert,
    Finset.mem_singleton]
  tauto

/-- No row of the final table has a column outside the expected column set. -/
theorem get_eq_none_of_not_mem_expectedColumns (ee : Engine) (provinsi : FeatureCollection)
    (ys : List Int) :
    ∀ f ∈ combinedResults ee provinsi ys, ∀ k, k ∉ expectedColumns ys → f.get k = none := by
  induction ys using List.reverseRecOn with
  | nil =>
    intro f hf k hk
    rw [combinedResults_nil] at hf
    obtain ⟨p, _, rfl⟩ := List.mem_map.1 hf
    exact Feature.get_select_of_ne p (fun h => hk (mem_expectedColumns.2 (Or.inl h)))
  | append_singleton ys y ih =>
    intro f hf k hk
    rw [combinedResults_append] at hf
    obtain ⟨p, hp, s, hs, o, ho, hps, hqo, rfl⟩ := mem_yearStep.1 hf
    have hrow := get_yearStep_row hs ho hps hqo
    rw [expectedColumns_append] at hk
    simp only [Finset.mem_union, Finset.mem_insert, Finset.mem_singleton, not_or] at hk
    rw [hrow.2.2.2.1 k hk.2.1.2 hk.1.2]
    exact ih p hp k hk.2.2

/-- A table that has exactly one row of a given name has only that row of the name. -/
theorem eq_of_rowsNamed_eq_one {t : FeatureCollection} {v : Value} (h : rowsNamed t v = 1)
    {s s' : Feature} (hs : s ∈ t) (hs' : s' ∈ t)
    (hn : s.get "NAME_1" = some v) (hn' : s'.get "NAME_1" = some v) : s = s' := by
  unfold rowsNamed at h
  rw [List.countP_eq_length_filter, List.length_eq_one] at h
  obtain ⟨x, hx⟩ := h
  have h1 : s ∈ t.filter fun feature => decide (feature.get "NAME_1" = some v) :=
    List.mem_filter.2 ⟨hs, by simpa using hn⟩
  have h2 : s' ∈ t.filter fun feature => decide (feature.get "NAME_1" = some v) :=
    List.mem_filter.2 ⟨hs', by simpa using hn'⟩
  rw [hx] at h1 h2
  rw [List.mem_singleton.1 h1, List.mem_singleton.1 h2]

theorem exists_name_of_map_name_eq {a b : FeatureCollection} {P : Value → Prop}
    (h : a.map (fun f => f.get "NAME_1") = b.map fun f => f.get "NAME_1")
    (hb : ∀ q ∈ b, ∃ v, q.get "NAME_1" = some v ∧ P v) :
    ∀ p ∈ a, ∃ v, p.get "NAME_1" = some v ∧ P v := by
  intro p hp
  have : p.get "NAME_1" ∈ b.map fun f => f.get "NAME_1" := by
    rw [← h]; exact List.mem_map.2 ⟨p, hp, rfl⟩
  obtain ⟨q, hq, hqp⟩ := List.mem_map.1 this
  obtain ⟨v, hv, hP⟩ := hb q hq
  exact ⟨v, by rw [← hqp, hv], hP⟩

/-- When every yearly table has exactly one row for the name of every region, the
final table has the names of the region table, row by row. -/
theorem map_name_combinedResults (ee : Engine) (provinsi : FeatureCollection)
    (ys : List Int)
    (h : ∀ y ∈ ys, ∀ p ∈ provinsi, ∃ v, p.get "NAME_1" = some v
      ∧ rowsNamed (calculateNtlForYear ee provinsi y) v = 1
      ∧ rowsNamed (calculateNo2ForYear ee provinsi y) v = 1) :
    (combinedResults ee provinsi ys).map (fun f => f.get "NAME_1")
      = provinsi.map fun f => f.get "NAME_1" := by
  induction ys using List.reverseRecOn with
  | nil => rw [combinedResults_nil, map_name_select]
  | append_singleton ys y ih =>
    have ih' := ih (fun z hz => h z (List.mem_append_left _ hz))
    have hy := h y (List.mem_append_right _ (List.mem_singleton_self y))
    rw [combinedResults_append]
    unfold yearStep
    have h1 : (mergeStep (combinedResults ee provinsi ys)
        (calculateNtlForYear ee provinsi y)).map (fun f => f.get "NAME_1")
          = provinsi.map fun f => f.get "NAME_1" := by
      rw [map_name_mergeStep_eq _ _ (exists_name_of_map_name_eq ih'
        (fun q hq => (hy q hq).imp fun v hv => ⟨hv.1, hv.2.1⟩)), ih']
    rw [map_name_mergeStep_eq _ _ (exists_name_of_map_name_eq h1
      (fun q hq => (hy q hq).imp fun v hv => ⟨hv.1, hv.2.2⟩)), h1]

theorem exists_name_of_oneRowPerRegion {provinsi a b : FeatureCollection}
    (ha : OneRowPerRegion provinsi a) (hb : OneRowPerRegion provinsi b) :
    ∀ p ∈ provinsi, ∃ v, p.get "NAME_1" = some v ∧ rowsNamed a v = 1 ∧ rowsNamed b v = 1 := by
  intro p hp
  obtain ⟨v, hv⟩ := Option.isSome_iff_exists.1 (ha p hp).1
  have h1 := (ha p hp).2
  have h2 := (hb p hp).2
  unfold rowsOfRegion at h1 h2
  rw [hv] at h1 h2
  exact ⟨v, hv, h1, h2⟩

/-- The values the final table holds in the metric columns of a processed year. -/
theorem get_metric_combinedResults (ee : Engine) (provinsi : FeatureCollection)
    (ys : List Int) (hY : ys.Nodup)
    (h : ∀ y ∈ ys, ∀ p ∈ provinsi, ∃ v, p.get "NAME_1" = some v
      ∧ rowsNamed (calculateNtlForYear ee provinsi y) v = 1
      ∧ rowsNamed (calculateNo2ForYear ee provinsi y) v = 1) :
    ∀ y ∈ ys, ∀ f ∈ combinedResults ee provinsi ys,
      (∀ s ∈ calculateNtlForYear ee provinsi y, s.get "NAME_1" = f.get "NAME_1" →
        f.get ("NTL_" ++ toString y) = s.get ("NTL_" ++ toString y))
      ∧ (∀ o ∈ calculateNo2ForYear ee provinsi y, o.get "NAME_1" = f.get "NAME_1" →
        f.get ("NO2_" ++ toString y) = o.get ("NO2_" ++ toString y)) := by
  induction ys using List.reverseRecOn with
  | nil => intro y hy; simp at hy
  | append_singleton ys y0 ih =>
    rw [List.nodup_append] at hY
    have hy0 : y0 ∉ ys := fun hmem => hY.2.2 hmem (List.mem_singleton_self y0)
    have hys := fun z hz => h z (List.mem_append_left _ hz)
    have ih' := ih hY.1 hys
    have hone := h y0 (List.mem_append_right _ (List.mem_singleton_self y0))
    have hnames := map_name_combinedResults ee provinsi ys hys
    intro y hy f hf
    rw [combinedResults_append] at hf
    obtain ⟨p, hp, s0, hs0, o0, ho0, hps, hqo, rfl⟩ := mem_yearStep.1 hf
    obtain ⟨hname, hsname, honame, hother, hNnone, hNsome, hOnone, hOsome⟩ :=
      get_yearStep_row hs0 ho0 hps hqo
    obtain ⟨v, hpv, hcN, hcO⟩ := exists_name_of_map_name_eq hnames hone p hp
    have hpnone : ∀ k, k ∉ expectedColumns ys → p.get k = none :=
      get_eq_none_of_not_mem_expectedColumns ee provinsi ys p hp
    rcases List.mem_append.1 hy with hy | hy
    · have hne : y ≠ y0 := fun e => hy0 (e ▸ hy)
      have hN : "NTL_" ++ toString y ≠ "NTL_" ++ toString y0 := fun e => hne (ntl_injective e)
      have hO : "NO2_" ++ toString y ≠ "NO2_" ++ toString y0 := fun e => hne (no2_injective e)
      rw [hname, hother _ hN (ntl_ne_no2 _ _),
        hother _ (fun e => ntl_ne_no2 _ _ e.symm) hO]
      exact ih' y hy p hp
    · rw [List.mem_singleton] at hy
      subst hy
      rw [hname]
      constructor
      · intro s hs hsn
        have : s = s0 := eq_of_rowsNamed_eq_one hcN hs hs0 (by rw [hsn, hpv])
          (by rw [hsname, hpv])
        subst this
        cases hv : s.get ("NTL_" ++ toString y) with
        | none =>
          rw [hNnone hv]
          apply hpnone
          rw [mem_expectedColumns]
          rintro (e | e)
          · exact ntl_ne_name _ e
          · exact ntl_not_mem_metricColumns hy0 e
        | some w => exact hNsome w hv
      · intro o ho hon
        have : o = o0 := eq_of_rowsNamed_eq_one hcO ho ho0 (by rw [hon, hpv])
          (by rw [honame, hpv])
        subst this
        cases hv : o.get ("NO2_" ++ toString y) with
        | none =>
          rw [hOnone hv]
          apply hpnone
          rw [mem_expectedColumns]
          rintro (e | e)
          · exact no2_ne_name _ e
          · exact no2_not_mem_metricColumns hy0 e
        | some w => exact hOsome w hv

/-- The columns of a row of a yearly table that carries a name, when the zonal rows
carry a sum. -/
theorem propertyNames_of_mem_renamed {zonal : FeatureCollection} {c : String}
    (hc : c ≠ "NAME_1") (hsum : ∀ g ∈ zonal, (g.get "sum").isSome) {s : Feature}
    (hs : s ∈ zonal.map fun feature => (feature.select ["NAME_1"]).set c (feature.get "sum"))
    (hn : (s.get "NAME_1").isSome) : s.propertyNames = {"NAME_1", c} := by
  obtain ⟨g, hg, rfl⟩ := List.mem_map.1 hs
  rw [(renamed_row_get g hc).1] at hn
  exact renamed_row_propertyNames g hc hn (hsum g hg)

/-- The column set of every row of the final table. -/
theorem propertyNames_combinedResults (ee : Engine) (provinsi : FeatureCollection)
    (ys : List Int)
    (hName : ∀ p ∈ provinsi, (p.get "NAME_1").isSome)
    (hN : ∀ y ∈ ys, ∀ g ∈ ntlSum ee provinsi y, (g.get "sum").isSome)
    (hO : ∀ y ∈ ys, ∀ g ∈ no2Sum ee provinsi y, (g.get "sum").isSome) :
    ∀ f ∈ combinedResults ee provinsi ys, f.propertyNames = expectedColumns ys := by
  induction ys using List.reverseRecOn with
  | nil =>
    intro f hf
    rw [combinedResults_nil] at hf
    obtain ⟨p, hp, rfl⟩ := List.mem_map.1 hf
    obtain ⟨n, hn⟩ := Option.isSome_iff_exists.1 (hName p hp)
    ext k
    rw [Feature.mem_propertyNames, mem_expectedColumns]
    constructor
    · rintro ⟨w, hw⟩
      by_contra hk
      push_neg at hk
      rw [Feature.get_select_of_ne p hk.1] at hw
      exact Option.noConfusion hw
    · rintro (rfl | hk)
      · exact ⟨n, by rw [Feature.get_select_name, hn]⟩
      · simp [metricColumns] at hk
  | append_singleton ys y ih =>
    intro f hf
    rw [combinedResults_append] at hf
    obtain ⟨p, hp, s, hs, o, ho, hps, hqo, rfl⟩ := mem_yearStep.1 hf
    obtain ⟨vs, _, hsv⟩ := (filter_eq_true_iff _ _).1 hps
    obtain ⟨vo, _, hov⟩ := (filter_eq_true_iff _ _).1 hqo
    have hy := List.mem_append_right ys (List.mem_singleton_self y)
    rw [Feature.propertyNames_copyProperties, Feature.propertyNames_copyProperties,
      ih (fun z hz => hN z (List.mem_append_left _ hz))
        (fun z hz => hO z (List.mem_append_left _ hz)) p hp,
      propertyNames_of_mem_renamed (ntl_ne_name _) (hN y hy) hs (by rw [hsv]; rfl),
      propertyNames_of_mem_renamed (no2_ne_name _) (hO y hy) ho (by rw [hov]; rfl),
      expectedColumns_append]

/-! ## The order of the two merge steps -/

theorem mergeStep_eq_flatMap (m t : FeatureCollection) :
    mergeStep m t
      = m.flatMap fun p => (t.filter fun s => filter p s).map fun s => p.copyProperties s := by
  induction m with
  | nil => rfl
  | cons p m ih => rw [mergeStep_cons, ih, List.flatMap_cons]

theorem filter_congr_left {p q : Feature} (h : p.get "NAME_1" = q.get "NAME_1") (o : Feature) :
    filter p o = filter q o := by
  unfold filter Filter.equals
  rw [h]

/-- Listing the pairs of two lists row-major or column-major gives the same rows. -/
theorem flatMap_map_swap {α β γ : Type} (xs : List α) (ys : List β) (F : α → β → γ) :
    (xs.flatMap fun a => ys.map fun b => F a b).Perm
      (ys.flatMap fun b => xs.map fun a => F a b) := by
  induction xs with
  | nil => simp
  | cons a xs ih =>
    simp only [List.flatMap_cons, List.map_cons]
    exact (ih.append_left _).trans (List.map_append_flatMap_perm ys (fun b => F a b) _)

/-- Copying an NTL row and an NO2 row of one year and one region onto a master row
gives the same row in either order. -/
theorem copyProperties_comm {ee : Engine} {provinsi : FeatureCollection} {y : Int}
    {p s o : Feature} (hs : s ∈ calculateNtlForYear ee provinsi y)
    (ho : o ∈ calculateNo2ForYear ee provinsi y)
    (hn : s.get "NAME_1" = o.get "NAME_1") :
    (p.copyProperties s).copyProperties o = (p.copyProperties o).copyProperties s := by
  refine Feature.ext_get (by rfl) ?_
  intro k
  by_cases hk : k = "NAME_1"
  · subst hk
    cases hv : o.get "NAME_1" with
    | none =>
      rw [hv] at hn
      rw [Feature.get_copyProperties_of_none hv, Feature.get_copyProperties_of_none hn,
        Feature.get_copyProperties_of_none hn, Feature.get_copyProperties_of_none hv]
    | some v =>
      rw [hv] at hn
      rw [Feature.get_copyProperties_of_some hv, Feature.get_copyProperties_of_some hn]
  · by_cases hkN : k = "NTL_" ++ toString y
    · have hok : o.get k = none :=
        no2_row_get_other ho hk (fun e => ntl_ne_no2 _ _ (hkN ▸ e))
      rw [Feature.get_copyProperties_of_none hok]
      cases hv : s.get k with
      | none =>
        rw [Feature.get_copyProperties_of_none hv, Feature.get_copyProperties_of_none hv,
          Feature.get_copyProperties_of_none hok]
      | some v =>
        rw [Feature.get_copyProperties_of_some hv, Feature.get_copyProperties_of_some hv]
    · have hsk : s.get k = none := ntl_row_get_other hs hk hkN
      rw [Feature.get_copyProperties_of_none hsk]
      cases hv : o.get k with
      | none =>
        rw [Feature.get_copyProperties_of_none hv, Feature.get_copyProperties_of_none hsk,
          Feature.get_copyProperties_of_none hv]
      | some v =>
        rw [Feature.get_copyProperties_of_some hv, Feature.get_copyProperties_of_some hv]

/-- The rows two successive merge steps make of one master row. -/
theorem two_merges_of_row (p : Feature) (a b : FeatureCollection) :
    ((a.filter fun s => filter p s).map fun s => p.copyProperties s).flatMap
        (fun q => (b.filter fun o => filter q o).map fun o => q.copyProperties o)
      = (a.filter fun s => filter p s).flatMap fun s =>
          (b.filter fun o => filter p o).map fun o => (p.copyProperties s).copyProperties o := by
  rw [List.flatMap_map]
  apply List.flatMap_congr
  intro s hs
  have hc := (List.mem_filter.1 hs).2
  have : (fun o => filter (p.copyProperties s) o) = fun o => filter p o := by
    funext o
    exact filter_congr_left (get_name_copyProperties hc).1 o
  show ((b.filter fun o => filter (p.copyProperties s) o).map fun o =>
      (p.copyProperties s).copyProperties o) = _
  rw [this]

/-- With at most one element in the first list the two listings of the pairs agree. -/
theorem flatMap_map_swap_eq {α β γ : Type} (xs : List α) (ys : List β) (F : α → β → γ)
    (h : xs.length ≤ 1) :
    (xs.flatMap fun a => ys.map fun b => F a b)
      = ys.flatMap fun b => xs.map fun a => F a b := by
  match xs, h with
  | [], _ => simp
  | [a], _ =>
    induction ys with
    | nil => rfl
    | cons b ys ih => simpa using ih

/-- A table with pairwise distinct names offers at most one row to a primary row. -/
theorem matches_length_le_one {t : FeatureCollection} (h : (names t).Nodup) (p : Feature) :
    (t.filter fun s => filter p s).length ≤ 1 := by
  cases hp : p.get "NAME_1" with
  | none =>
    have : (t.filter fun s => filter p s) = [] := by
      rw [List.filter_eq_nil_iff]
      intro s _
      simp [filter_eq_false_of_none hp s]
    simp [this]
  | some v =>
    rw [matches_length hp]
    exact rowsNamed_le_one h v

/-- The rows of one master row after the two merges, with the roles of the two yearly
tables exchanged. -/
theorem swap_yearly_rows {ee : Engine} {provinsi : FeatureCollection} {y : Int}
    (p : Feature) :
    (((calculateNo2ForYear ee provinsi y).filter fun o => filter p o).flatMap fun o =>
      ((calculateNtlForYear ee provinsi y).filter fun s => filter p s).map fun s =>
        (p.copyProperties s).copyProperties o)
      = ((calculateNo2ForYear ee provinsi y).filter fun o => filter p o).flatMap fun o =>
          ((calculateNtlForYear ee provinsi y).filter fun s => filter p s).map fun s =>
            (p.copyProperties o).copyProperties s := by
  apply List.flatMap_congr
  intro o ho
  apply List.map_congr_left
  intro s hs
  have hs' := List.mem_filter.1 hs
  have ho' := List.mem_filter.1 ho
  have hsn := get_name_copyProperties hs'.2
  have hon := get_name_copyProperties ho'.2
  exact copyProperties_comm hs'.1 ho'.1 (by rw [← hsn.2, hsn.1, ← hon.2, hon.1])

/-! ## The properties of the pipeline -/

/-- C1, as stated, fails: the rasters do not cover Bali, the yearly tables have no row
for it, and the final table of the year 2019 has one row where the region table has
two; the region name Bali is gone. -/
theorem inner_join_drops_region :
    provinsiAcehBali.length = 2
    ∧ names provinsiAcehBali = [.string "Aceh", .string "Bali"]
    ∧ names (calculateNtlForYear noCoverageOfBali provinsiAcehBali 2019) = [.string "Aceh"]
    ∧ (combinedResults noCoverageOfBali provinsiAcehBali [2019]).length = 1
    ∧ names (combinedResults noCoverageOfBali provinsiAcehBali [2019]) = [.string "Aceh"] := by
  decide

/-- C1, amended. When the NTL table and the NO2 table of every year of the list have
exactly one row per region, the final table has exactly as many rows as the region
table, and every region name of the region table is still present in it. -/
theorem combinedResults_keeps_rows (ee : Engine) (provinsi : FeatureCollection)
    (years : List Int)
    (h : ∀ y ∈ years, OneRowPerRegion provinsi (calculateNtlForYear ee provinsi y)
      ∧ OneRowPerRegion provinsi (calculateNo2ForYear ee provinsi y)) :
    (combinedResults ee provinsi years).length = provinsi.length
    ∧ ∀ n ∈ names provinsi, n ∈ names (combinedResults ee provinsi years) := by
  have hmap := map_name_combinedResults ee provinsi years
    (fun y hy => exists_name_of_oneRowPerRegion (h y hy).1 (h y hy).2)
  constructor
  · have := congrArg List.length hmap
    simpa using this
  · intro n hn
    rw [names_eq_of_map_name_eq hmap]
    exact hn

/-- The final table of the script's six years over two fully covered provinces. -/
theorem combinedResults_keeps_rows_witness :
    (∀ y ∈ years, OneRowPerRegion provinsiAcehBali
        (calculateNtlForYear fullCoverage provinsiAcehBali y)
      ∧ OneRowPerRegion provinsiAcehBali (calculateNo2ForYear fullCoverage provinsiAcehBali y))
    ∧ (combinedResults fullCoverage provinsiAcehBali years).length = provinsiAcehBali.length
    ∧ ∀ n ∈ names provinsiAcehBali,
        n ∈ names (combinedResults fullCoverage provinsiAcehBali years) :=
  ⟨by decide, combinedResults_keeps_rows fullCoverage provinsiAcehBali years (by decide)⟩

/-- C2. Assume the region names are pairwise distinct, the years are pairwise distinct
and the NTL and NO2 table of every year has exactly one row per region.  Then the
final table has, row by row, the `NAME_1` of the region table, so exactly one row per
region name; and for every year of the list, every final row holds under `NTL_<y>` the
value that the row of its region holds in `calculateNtlForYear(y)`, and under
`NO2_<y>` the value that the row of its region holds in `calculateNo2ForYear(y)`. -/
theorem metric_values_of_region_and_year (ee : Engine) (provinsi : FeatureCollection)
    (years : List Int)
    (hNames : (provinsi.map fun f => f.get "NAME_1").Nodup)
    (hYears : years.Nodup)
    (h : ∀ y ∈ years, OneRowPerRegion provinsi (calculateNtlForYear ee provinsi y)
      ∧ OneRowPerRegion provinsi (calculateNo2ForYear ee provinsi y)) :
    (combinedResults ee provinsi years).map (fun f => f.get "NAME_1")
        = provinsi.map (fun f => f.get "NAME_1")
    ∧ ((combinedResults ee provinsi years).map fun f => f.get "NAME_1").Nodup
    ∧ ∀ y ∈ years, ∀ f ∈ combinedResults ee provinsi years,
        (∀ s ∈ calculateNtlForYear ee provinsi y, s.get "NAME_1" = f.get "NAME_1" →
          f.get ("NTL_" ++ toString y) = s.get ("NTL_" ++ toString y))
        ∧ (∀ o ∈ calculateNo2ForYear ee provinsi y, o.get "NAME_1" = f.get "NAME_1" →
          f.get ("NO2_" ++ toString y) = o.get ("NO2_" ++ toString y)) := by
  have hone := fun y hy => exists_name_of_oneRowPerRegion (h y hy).1 (h y hy).2
  have hmap := map_name_combinedResults ee provinsi years hone
  exact ⟨hmap, hmap ▸ hNames, get_metric_combinedResults ee provinsi years hYears hone⟩

/-- The final table of the years 2019 and 2020 over two fully covered provinces. -/
theorem metric_values_of_region_and_year_witness :
    (provinsiAcehBali.map fun f => f.get "NAME_1").Nodup
    ∧ ([2019, 2020] : List Int).Nodup
    ∧ (∀ y ∈ ([2019, 2020] : List Int),
        OneRowPerRegion provinsiAcehBali (calculateNtlForYear fullCoverage provinsiAcehBali y)
        ∧ OneRowPerRegion provinsiAcehBali
            (calculateNo2ForYear fullCoverage provinsiAcehBali y))
    ∧ (combinedResults fullCoverage provinsiAcehBali [2019, 2020]).map
          (fun f => f.get "NAME_1")
        = provinsiAcehBali.map (fun f => f.get "NAME_1")
    ∧ ((combinedResults fullCoverage provinsiAcehBali [2019, 2020]).map
          fun f => f.get "NAME_1").Nodup
    ∧ ∀ y ∈ ([2019, 2020] : List Int),
        ∀ f ∈ combinedResults fullCoverage provinsiAcehBali [2019, 2020],
        (∀ s ∈ calculateNtlForYear fullCoverage provinsiAcehBali y,
          s.get "NAME_1" = f.get "NAME_1" →
          f.get ("NTL_" ++ toString y) = s.get ("NTL_" ++ toString y))
        ∧ (∀ o ∈ calculateNo2ForYear fullCoverage provinsiAcehBali y,
          o.get "NAME_1" = f.get "NAME_1" →
          f.get ("NO2_" ++ toString y) = o.get ("NO2_" ++ toString y)) :=
  ⟨by decide, by decide, by decide,
    metric_values_of_region_and_year fullCoverage provinsiAcehBali [2019, 2020]
      (by decide) (by decide) (by decide)⟩

/-- C3, as stated, fails.  With the distinct years 2019 and 2020 and a zonal reduction
that yields no `sum` for Bali, the row of Aceh has the five expected columns and the
row of Bali has the single column `NAME_1`; and with no year at all, a region that
carries no `NAME_1` gives a final row without any column. -/
theorem final_row_lacks_columns :
    ([2019, 2020] : List Int).Nodup
    ∧ (combinedResults noSumForBali provinsiAcehBali [2019, 2020]).map
        (fun f => (f.get "NAME_1", f.propertyNames.card))
        = [(some (.string "Aceh"), 5), (some (.string "Bali"), 1)]
    ∧ (combinedResults fullCoverage provinsiUnnamed []).map
        (fun f => f.propertyNames.card) = [0] := by
  decide

/-- C3, amended. Assume the years are pairwise distinct, every region carries `NAME_1`
and every zonal row carries a `sum`.  Then every row of the final table has exactly
the columns `NAME_1`, `NTL_<y>` and `NO2_<y>` for the years `y` of the list, which are
`1 + 2 * |years|` columns; the `2 * |years|` metric column names are pairwise
distinct.  For the years 2019 and 2020 the column set is
`NAME_1, NTL_2019, NO2_2019, NTL_2020, NO2_2020`. -/
theorem final_column_set (ee : Engine) (provinsi : FeatureCollection) (years : List Int)
    (hYears : years.Nodup)
    (hName : ∀ p ∈ provinsi, (p.get "NAME_1").isSome)
    (hN : ∀ y ∈ years, ∀ g ∈ ntlSum ee provinsi y, (g.get "sum").isSome)
    (hO : ∀ y ∈ years, ∀ g ∈ no2Sum ee provinsi y, (g.get "sum").isSome) :
    (∀ f ∈ combinedResults ee provinsi years,
        f.propertyNames = expectedColumns years
        ∧ f.propertyNames.card = 1 + 2 * years.length)
    ∧ (metricColumns years).Nodup
    ∧ (metricColumns years).length = 2 * years.length
    ∧ expectedColumns [2019, 2020]
        = {"NAME_1", "NTL_2019", "NO2_2019", "NTL_2020", "NO2_2020"} := by
  refine ⟨?_, metricColumns_nodup hYears, length_metricColumns years, by decide⟩
  intro f hf
  have hcols := propertyNames_combinedResults ee provinsi years hName hN hO f hf
  exact ⟨hcols, by rw [hcols, card_expectedColumns hYears]⟩

/-- The columns of the final table of the years 2019 and 2020 over two fully covered
provinces: both rows have the five expected columns. -/
theorem final_column_set_witness :
    ([2019, 2020] : List Int).Nodup
    ∧ (∀ p ∈ provinsiAcehBali, (p.get "NAME_1").isSome)
    ∧ (combinedResults fullCoverage provinsiAcehBali [2019, 2020]).length = 2
    ∧ (∀ f ∈ combinedResults fullCoverage provinsiAcehBali [2019, 2020],
        f.propertyNames = expectedColumns [2019, 2020]
        ∧ f.propertyNames.card = 1 + 2 * ([2019, 2020] : List Int).length)
    ∧ (metricColumns [2019, 2020]).Nodup
    ∧ (metricColumns [2019, 2020]).length = 2 * ([2019, 2020] : List Int).length
    ∧ expectedColumns [2019, 2020]
        = {"NAME_1", "NTL_2019", "NO2_2019", "NTL_2020", "NO2_2020"} :=
  ⟨by decide, by decide, by decide,
    final_column_set fullCoverage provinsiAcehBali [2019, 2020]
      (by decide) (by decide) (by decide) (by decide)⟩

/-- C5. For every master table and every year, merging the yearly NTL table and then
the yearly NO2 table gives the same rows as merging the NO2 table first and the NTL
table second: a row is its geometry and the value of every column, and the two final
tables hold the same rows, equally often.  When the yearly NTL table has pairwise
distinct region names, the two final tables also list their rows in the same order. -/
theorem merge_order_irrelevant (ee : Engine) (provinsi master : FeatureCollection)
    (y : Int) :
    (mergeStep (mergeStep master (calculateNtlForYear ee provinsi y))
        (calculateNo2ForYear ee provinsi y)).Perm
      (mergeStep (mergeStep master (calculateNo2ForYear ee provinsi y))
        (calculateNtlForYear ee provinsi y))
    ∧ ((names (calculateNtlForYear ee provinsi y)).Nodup →
        mergeStep (mergeStep master (calculateNtlForYear ee provinsi y))
            (calculateNo2ForYear ee provinsi y)
          = mergeStep (mergeStep master (calculateNo2ForYear ee provinsi y))
            (calculateNtlForYear ee provinsi y)) := by
  rw [mergeStep_eq_flatMap (mergeStep master _), mergeStep_eq_flatMap master,
    List.flatMap_assoc,
    mergeStep_eq_flatMap (mergeStep master _), mergeStep_eq_flatMap master,
    List.flatMap_assoc]
  constructor
  · apply List.Perm.flatMap_left
    intro p _
    rw [two_merges_of_row, two_merges_of_row, ← swap_yearly_rows]
    exact flatMap_map_swap _ _ _
  · intro hN
    apply List.flatMap_congr
    intro p _
    rw [two_merges_of_row, two_merges_of_row, ← swap_yearly_rows]
    exact flatMap_map_swap_eq _ _ _ (matches_length_le_one hN p)

/-- C4, as stated, fails: a metric-year row that carries a column the master row
already has overwrites it (`NTL_2019` was 1 in the master and is 2 after the merge). -/
theorem merge_overwrites_existing_column :
    masterWithNtl2019.map (fun f => f.get "NTL_2019") = [some (.number 1)]
    ∧ (mergeStep masterWithNtl2019 metricNtl2019).map (fun f => f.get "NTL_2019")
        = [some (.number 2)] := by
  decide

/-- C4, amended. Every row of one merge step comes from a master row and a metric-year
row: it has the geometry and the `NAME_1` of the master row, every column that the
metric-year row does not carry keeps the value of the master row, and every column
that the metric-year row carries has the value of the metric-year row. -/
theorem mergeStep_row_frame (master metric : FeatureCollection) (f : Feature)
    (hf : f ∈ mergeStep master metric) :
    ∃ p ∈ master, ∃ s ∈ metric,
      f.geometry = p.geometry
      ∧ f.get "NAME_1" = p.get "NAME_1"
      ∧ (∀ k, k ∉ s.propertyNames → f.get k = p.get k)
      ∧ (∀ k, k ∈ s.propertyNames → f.get k = s.get k) := by
  obtain ⟨p, hp, s, hs, hc, rfl⟩ := mem_mergeStep.1 hf
  refine ⟨p, hp, s, hs, rfl, (get_name_copyProperties hc).1, ?_, ?_⟩
  · intro k hk
    exact Feature.get_copyProperties_of_none (Feature.not_mem_propertyNames.1 hk)
  · intro k hk
    obtain ⟨v, hv⟩ := Feature.mem_propertyNames.1 hk
    rw [Feature.get_copyProperties_of_some hv, hv]

/-- The frame property of the merge step at a concrete master and metric-year table. -/
theorem mergeStep_row_frame_witness :
    Feature.ofList 8 [("NAME_1", .string "Bali"), ("NO2_2020", .number 30)]
        ∈ mergeStep masterAcehBali metricAcehBali
    ∧ ∃ p ∈ masterAcehBali, ∃ s ∈ metricAcehBali,
      (Feature.ofList 8 [("NAME_1", .string "Bali"), ("NO2_2020", .number 30)]).geometry
        = p.geometry
      ∧ (Feature.ofList 8 [("NAME_1", .string "Bali"), ("NO2_2020", .number 30)]).get "NAME_1"
        = p.get "NAME_1"
      ∧ (∀ k, k ∉ s.propertyNames →
          (Feature.ofList 8 [("NAME_1", .string "Bali"), ("NO2_2020", .number 30)]).get k
            = p.get k)
      ∧ (∀ k, k ∈ s.propertyNames →
          (Feature.ofList 8 [("NAME_1", .string "Bali"), ("NO2_2020", .number 30)]).get k
            = s.get k) :=
  ⟨by decide, mergeStep_row_frame masterAcehBali metricAcehBali _ (by decide)⟩

/-- C10, as stated, fails: the master has one row and pairwise distinct names, the
metric-year table holds two rows for that region, and the merged table has two rows
of the same name. -/
theorem merge_duplicates_master_row :
    (masterAceh.map fun f => f.get "NAME_1").Nodup
    ∧ masterAceh.length = 1
    ∧ (mergeStep masterAceh metricAcehTwice).length = 2
    ∧ (mergeStep masterAceh metricAcehTwice).map (fun f => f.get "NAME_1")
        = [some (.string "Aceh"), some (.string "Aceh")] := by
  decide

/-- C10, amended. If the region names of the master table are pairwise distinct and
the region names of the metric-year table are pairwise distinct, then the `NAME_1`
cells of the merged table are pairwise distinct and the merged table has no more rows
than the master. -/
theorem mergeStep_names_nodup (master metric : FeatureCollection)
    (hm : (names master).Nodup) (ht : (names metric).Nodup) :
    ((mergeStep master metric).map fun f => f.get "NAME_1").Nodup
    ∧ (mergeStep master metric).length ≤ master.length := by
  have hsub := map_name_mergeStep_sublist master metric ht
  constructor
  · exact (hm.map (Option.some_injective _)).sublist hsub
  · have h1 := hsub.length_le
    have h2 : (names master).length ≤ master.length := by
      unfold names
      exact List.length_filterMap_le _ _
    simp only [List.length_map] at h1
    omega

/-- The uniqueness invariant at a concrete master and metric-year table. -/
theorem mergeStep_names_nodup_witness :
    (names masterAcehBali).Nodup ∧ (names metricAcehBali).Nodup
    ∧ ((mergeStep masterAcehBali metricAcehBali).map fun f => f.get "NAME_1").Nodup
    ∧ (mergeStep masterAcehBali metricAcehBali).length ≤ masterAcehBali.length :=
  ⟨by decide, by decide, mergeStep_names_nodup masterAcehBali metricAcehBali (by decide) (by decide)⟩

/-- C9. With an empty list of years the final table is `provinsi.select(['NAME_1'])`:
row by row and in the same order it has the geometry and the `NAME_1` of the region
table and no other column. -/
theorem combinedResults_of_no_years (ee : Engine) (provinsi : FeatureCollection) :
    combinedResults ee provinsi [] = FeatureCollection.select provinsi ["NAME_1"]
    ∧ List.Forall₂
        (fun p r => r.geometry = p.geometry ∧ r.get "NAME_1" = p.get "NAME_1"
          ∧ ∀ k, k ≠ "NAME_1" → r.get k = none)
        provinsi (combinedResults ee provinsi []) := by
  refine ⟨rfl, ?_⟩
  rw [combinedResults_nil]
  unfold FeatureCollection.select
  rw [List.forall₂_map_right_iff, List.forall₂_same]
  intro p _
  exact ⟨rfl, Feature.get_select_name p, fun k hk => Feature.get_select_of_ne p hk⟩

/-- C6. One merge step is an inner join on `NAME_1`: a region name occurs in the merged
table exactly when it occurs in the master table and in the metric-year table.
Consequently the final table holds exactly the region names of the initial table that
occur in the NTL table and in the NO2 table of every year of the list. -/
theorem inner_join_region_names (ee : Engine) (provinsi master metric : FeatureCollection)
    (years : List Int) (n : Value) :
    (n ∈ names (mergeStep master metric) ↔ n ∈ names master ∧ n ∈ names metric)
    ∧ (n ∈ names (combinedResults ee provinsi years) ↔
        n ∈ names provinsi ∧ ∀ y ∈ years,
          n ∈ names (calculateNtlForYear ee provinsi y)
            ∧ n ∈ names (calculateNo2ForYear ee provinsi y)) :=
  ⟨mem_names_mergeStep master metric n, mem_names_combinedResults ee provinsi years n⟩

/-- C7. When every zonal row carries `NAME_1` and a `sum` value, `calculateNtlForYear`
returns, row by row, a row with exactly the two columns `NAME_1` and `NTL_<year>`:
`NAME_1` is unchanged, `NTL_<year>` holds the zonal `sum`, the column `sum` and every
other source column are gone, and the geometry is kept.  The same holds for
`calculateNo2ForYear` with the column `NO2_<year>`. -/
theorem yearly_rows_two_columns (ee : Engine) (provinsi : FeatureCollection) (year : Int)
    (hN : ∀ g ∈ ntlSum ee provinsi year, (g.get "NAME_1").isSome ∧ (g.get "sum").isSome)
    (hO : ∀ g ∈ no2Sum ee provinsi year, (g.get "NAME_1").isSome ∧ (g.get "sum").isSome) :
    List.Forall₂
      (fun g r => r.propertyNames = {"NAME_1", "NTL_" ++ toString year}
        ∧ r.propertyNames.card = 2
        ∧ r.get "NAME_1" = g.get "NAME_1" ∧ r.get ("NTL_" ++ toString year) = g.get "sum"
        ∧ r.get "sum" = none ∧ r.geometry = g.geometry)
      (ntlSum ee provinsi year) (calculateNtlForYear ee provinsi year)
    ∧ List.Forall₂
      (fun g r => r.propertyNames = {"NAME_1", "NO2_" ++ toString year}
        ∧ r.propertyNames.card = 2
        ∧ r.get "NAME_1" = g.get "NAME_1" ∧ r.get ("NO2_" ++ toString year) = g.get "sum"
        ∧ r.get "sum" = none ∧ r.geometry = g.geometry)
      (no2Sum ee provinsi year) (calculateNo2ForYear ee provinsi year) :=
  ⟨renamed_rows _ (ntl_ne_name _) (ntl_ne_sum _) hN,
   renamed_rows _ (no2_ne_name _) (no2_ne_sum _) hO⟩

/-- The two yearly tables of 2019 over a region table of two provinces that carry a
second source column. -/
theorem yearly_rows_two_columns_witness :
    (∀ g ∈ ntlSum fullCoverage provinsiAcehBali 2019,
        (g.get "NAME_1").isSome ∧ (g.get "sum").isSome)
    ∧ (∀ g ∈ no2Sum fullCoverage provinsiAcehBali 2019,
        (g.get "NAME_1").isSome ∧ (g.get "sum").isSome)
    ∧ List.Forall₂
      (fun g r => r.propertyNames = {"NAME_1", "NTL_" ++ toString (2019 : Int)}
        ∧ r.propertyNames.card = 2
        ∧ r.get "NAME_1" = g.get "NAME_1"
        ∧ r.get ("NTL_" ++ toString (2019 : Int)) = g.get "sum"
        ∧ r.get "sum" = none ∧ r.geometry = g.geometry)
      (ntlSum fullCoverage provinsiAcehBali 2019)
      (calculateNtlForYear fullCoverage provinsiAcehBali 2019)
    ∧ List.Forall₂
      (fun g r => r.propertyNames = {"NAME_1", "NO2_" ++ toString (2019 : Int)}
        ∧ r.propertyNames.card = 2
        ∧ r.get "NAME_1" = g.get "NAME_1"
        ∧ r.get ("NO2_" ++ toString (2019 : Int)) = g.get "sum"
        ∧ r.get "sum" = none ∧ r.geometry = g.geometry)
      (no2Sum fullCoverage provinsiAcehBali 2019)
      (calculateNo2ForYear fullCoverage provinsiAcehBali 2019) :=
  ⟨by decide, by decide,
    yearly_rows_two_columns fullCoverage provinsiAcehBali 2019 (by decide) (by decide)⟩

/-- C8 at a concrete catalogue. The window of the year 2019 ends at midnight at the
start of December 31 and the end is exclusive: of four images timestamped 2019-01-01
00:00, 2019-12-30 23:59:59.999, 2019-12-31 00:00 and 2019-12-31 12:00, only the first
two reach the stack that is averaged, for both metrics.  The two images of December
31 are dropped although their timestamps lie before 2020-01-01 00:00. -/
theorem december_31_is_dropped :
    Date.fromYMD 2019 1 1 = 1546300800000
    ∧ Date.fromYMD 2019 12 31 = 1577750400000
    ∧ Date.fromYMD 2020 1 1 = 1577836800000
    ∧ (ntlStack december2019 2019).map (fun image => image.time_start)
        = [1546300800000, 1577750399999]
    ∧ (no2Stack december2019 2019).map (fun image => image.time_start)
        = [1546300800000, 1577750399999] := by
  decide

end GEE
